import Mathlib

/-!
# Verification of the koinos-p2p core against its specification

A shallow embedding of the koinos-p2p source (Go) into Lean 4:

* the error-score reputation engine (`PeerErrorHandler`: `handleCanConnect`,
  `handleError`, `getScoreForError`, `decayErrorScore`, `CanConnect`);
* the pub/sub message-id function (`generateMessageID`), together with an
  executable model of SHA-256 (FIPS 180-4, as implemented by Go's
  `crypto/sha256`) and of raw (unpadded) base64 in both the standard and the
  URL alphabet (RFC 4648, as implemented by Go's `encoding/base64`);
* the connection manager (`handleConnected`, `handleDisconnected`,
  `connectInitialPeers`, `managerLoop`) as an explicit state machine;
* the per-peer handler loops (`nodeUpdateLoop`, `peerHandlerLoop`).

Machine integers (`uint64`) are modelled as `ℕ` with an explicit `% 2^64`
where the Go code performs arithmetic that can wrap.  The `float64`
computation in `decayErrorScore` (`math.Exp`, `math.Log`) is idealised over
the real numbers, with the final `uint64(...)` conversion rendered as the
natural-number floor; Go timestamps (`time.Time`, `time.Duration`) are clock
readings in `ℕ`.  Channels and `select` statements are modelled by explicit
event schedules: each `select` becomes a case split on which ready case
fired.
-/

namespace KoinosP2P

/-- Peer identifiers (libp2p `peer.ID`) are opaque strings. -/
abbrev PeerID := String

/-! ## Error-score reputation engine (`PeerErrorHandler`)

Embedding of `PeerErrorHandler` and its methods.  The Go `map[peer.ID]*errorScoreRecord`
is modelled as a total function into `Option`. -/

/-- The error taxonomy of `p2perrors`, one tag per `errors.Is` branch of
`getScoreForError`. -/
inductive ErrorKind where
  | transactionApplication
  | blockApplication
  | deserializationFault
  | blockIrreversibility
  | peerRPC
  | peerRPCTimeout
  | chainIDMismatch
  | chainNotConnected
  | checkpointMismatch
  | localRPC
  | localRPCTimeout
  | serializationFault
  | processRequestTimeout
  | unknown
deriving DecidableEq, Repr

/-- `options.PeerErrorHandlerOptions`: the threshold, the decay halflife and
one weight per error kind.  All fields are Go `uint64` (the halflife a
`time.Duration`), modelled as `ℕ`. -/
structure PeerErrorHandlerOptions where
  errorScoreThreshold : ℕ
  errorScoreDecayHalflife : ℕ
  transactionApplicationErrorScore : ℕ
  blockApplicationErrorScore : ℕ
  deserializationErrorScore : ℕ
  blockIrreversibilityErrorScore : ℕ
  peerRPCErrorScore : ℕ
  peerRPCTimeoutErrorScore : ℕ
  chainIDMismatchErrorScore : ℕ
  chainNotConnectedErrorScore : ℕ
  checkpointMismatchErrorScore : ℕ
  localRPCErrorScore : ℕ
  localRPCTimeoutErrorScore : ℕ
  serializationErrorScore : ℕ
  processRequestTimeoutErrorScore : ℕ
  unknownErrorScore : ℕ
deriving Repr

/-- `getScoreForError`: the weight charged for one error, by kind (the
`switch { case errors.Is(...) }` ladder; the kinds are disjoint, so the
ladder is a plain table lookup). -/
def getScoreForError (opts : PeerErrorHandlerOptions) : ErrorKind → ℕ
  | .transactionApplication => opts.transactionApplicationErrorScore
  | .blockApplication => opts.blockApplicationErrorScore
  | .deserializationFault => opts.deserializationErrorScore
  | .blockIrreversibility => opts.blockIrreversibilityErrorScore
  | .peerRPC => opts.peerRPCErrorScore
  | .peerRPCTimeout => opts.peerRPCTimeoutErrorScore
  | .chainIDMismatch => opts.chainIDMismatchErrorScore
  | .chainNotConnected => opts.chainNotConnectedErrorScore
  | .checkpointMismatch => opts.checkpointMismatchErrorScore
  | .localRPC => opts.localRPCErrorScore
  | .localRPCTimeout => opts.localRPCTimeoutErrorScore
  | .serializationFault => opts.serializationErrorScore
  | .processRequestTimeout => opts.processRequestTimeoutErrorScore
  | .unknown => opts.unknownErrorScore

/-- `errorScoreRecord`: last-update clock reading and current score
(`uint64`, hence a natural number). -/
structure ErrorScoreRecord where
  lastUpdate : ℕ
  score : ℕ
deriving DecidableEq, Repr

/-- The value computed by `decayErrorScore`:
`uint64(float64(score) * math.Exp(-1 * (math.Log(2)/halflife) * (now - lastUpdate)))`,
idealised over ℝ with the `uint64` conversion as the natural floor. -/
noncomputable def decayedScoreVal (opts : PeerErrorHandlerOptions)
    (score lastUpdate now : ℕ) : ℕ :=
  ⌊(score : ℝ) *
    Real.exp (-(Real.log 2 / (opts.errorScoreDecayHalflife : ℝ)) *
      ((now : ℝ) - (lastUpdate : ℝ)))⌋₊

/-- `decayErrorScore`: decay the record's score to the clock reading `now`
and stamp the record with `now`. -/
noncomputable def decayErrorScore (opts : PeerErrorHandlerOptions)
    (r : ErrorScoreRecord) (now : ℕ) : ErrorScoreRecord :=
  { lastUpdate := now
    score := decayedScoreVal opts r.score r.lastUpdate now }

/-- The `errorScores` map of `PeerErrorHandler`. -/
def ErrorScores := PeerID → Option ErrorScoreRecord

/-- The empty `errorScores` map (`make(map[peer.ID]*errorScoreRecord)`). -/
def emptyErrorScores : ErrorScores := fun _ => none

/-- `handleCanConnect`: if the peer has a record, decay it in place and reply
`score < ErrorScoreThreshold`; otherwise reply `true`.  Returns the reply and
the updated map (the Go code mutates the record through its pointer). -/
noncomputable def handleCanConnect (opts : PeerErrorHandlerOptions)
    (m : ErrorScores) (id : PeerID) (now : ℕ) : Bool × ErrorScores :=
  match m id with
  | some record =>
      let record' := decayErrorScore opts record now
      (decide (record'.score < opts.errorScoreThreshold),
       fun q => if q = id then some record' else m q)
  | none => (true, m)

/-- `handleError`: decay the existing record and add the error's weight
(`record.score += getScoreForError(...)`, a wrapping `uint64` addition), or
create a fresh record `{lastUpdate: now, score: weight}`.  The returned
`Bool` is whether the disconnect goroutine is spawned, i.e. whether the
resulting score is `>= ErrorScoreThreshold`. -/
noncomputable def handleError (opts : PeerErrorHandlerOptions)
    (m : ErrorScores) (id : PeerID) (kind : ErrorKind) (now : ℕ) :
    ErrorScores × Bool :=
  let record' : ErrorScoreRecord :=
    match m id with
    | some record =>
        let d := decayErrorScore opts record now
        { lastUpdate := d.lastUpdate
          score := (d.score + getScoreForError opts kind) % 2 ^ 64 }
    | none => { lastUpdate := now, score := getScoreForError opts kind }
  (fun q => if q = id then some record' else m q,
   decide (opts.errorScoreThreshold ≤ record'.score))

/-- Decay a record through a sequence of clock readings, one
`decayErrorScore` per reading. -/
noncomputable def decaySeq (opts : PeerErrorHandlerOptions)
    (r : ErrorScoreRecord) (ts : List ℕ) : ErrorScoreRecord :=
  ts.foldl (decayErrorScore opts) r

/-- The outcome of the `select` in `CanConnect`: either the reply from the
handler task arrived first, or the context was cancelled first. -/
inductive CanConnectOutcome where
  | replyFirst
  | ctxDoneFirst
deriving DecidableEq, Repr

/-- `CanConnect`: posts a `canConnectRequest` serviced by `handleCanConnect`
in the `Start` loop, then selects between the reply channel and
`ctx.Done()`.  The outcome of that race is explicit: if the reply arrives
first the reply is returned, if cancellation is observed first the result is
`false`. -/
noncomputable def CanConnect (opts : PeerErrorHandlerOptions)
    (m : ErrorScores) (id : PeerID) (now : ℕ) : CanConnectOutcome → Bool
  | .replyFirst => (handleCanConnect opts m id now).1
  | .ctxDoneFirst => false

/-- A concrete configuration used to exercise the engine on closed inputs:
threshold 10, halflife 1, every weight 1. -/
def opts0 : PeerErrorHandlerOptions :=
  { errorScoreThreshold := 10
    errorScoreDecayHalflife := 1
    transactionApplicationErrorScore := 1
    blockApplicationErrorScore := 1
    deserializationErrorScore := 1
    blockIrreversibilityErrorScore := 1
    peerRPCErrorScore := 1
    peerRPCTimeoutErrorScore := 1
    chainIDMismatchErrorScore := 1
    chainNotConnectedErrorScore := 1
    checkpointMismatchErrorScore := 1
    localRPCErrorScore := 1
    localRPCTimeoutErrorScore := 1
    serializationErrorScore := 1
    processRequestTimeoutErrorScore := 1
    unknownErrorScore := 1 }

/-! ## SHA-256 (Go `crypto/sha256`, FIPS 180-4) and raw base64 (Go `encoding/base64`)

Executable models: bytes are naturals below 256, 32-bit words are naturals
below `2^32` (`w32` reduces). -/

/-- Reduce to a 32-bit word. -/
def w32 (n : ℕ) : ℕ := n % 4294967296

/-- Right-rotation of a 32-bit word. -/
def rotr32 (n x : ℕ) : ℕ := w32 ((x >>> n) ||| (x <<< (32 - n)))

/-- FIPS 180-4 `Σ0`. -/
def bigSigma0 (x : ℕ) : ℕ := rotr32 2 x ^^^ rotr32 13 x ^^^ rotr32 22 x

/-- FIPS 180-4 `Σ1`. -/
def bigSigma1 (x : ℕ) : ℕ := rotr32 6 x ^^^ rotr32 11 x ^^^ rotr32 25 x

/-- FIPS 180-4 `σ0`. -/
def smallSigma0 (x : ℕ) : ℕ := rotr32 7 x ^^^ rotr32 18 x ^^^ (x >>> 3)

/-- FIPS 180-4 `σ1`. -/
def smallSigma1 (x : ℕ) : ℕ := rotr32 17 x ^^^ rotr32 19 x ^^^ (x >>> 10)

/-- FIPS 180-4 `Ch` (the complement is the 32-bit one). -/
def chFn (x y z : ℕ) : ℕ := (x &&& y) ^^^ ((x ^^^ 4294967295) &&& z)

/-- FIPS 180-4 `Maj`. -/
def majFn (x y z : ℕ) : ℕ := (x &&& y) ^^^ (x &&& z) ^^^ (y &&& z)

/-- The 64 SHA-256 round constants (FIPS 180-4 section 4.2.2, here in
decimal). -/
def sha256K : List ℕ :=
  [1116352408, 1899447441, 3049323471, 3921009573, 961987163, 1508970993,
   2453635748, 2870763221, 3624381080, 310598401, 607225278, 1426881987,
   1925078388, 2162078206, 2614888103, 3248222580, 3835390401, 4022224774,
   264347078, 604807628, 770255983, 1249150122, 1555081692, 1996064986,
   2554220882, 2821834349, 2952996808, 3210313671, 3336571891, 3584528711,
   113926993, 338241895, 666307205, 773529912, 1294757372, 1396182291,
   1695183700, 1986661051, 2177026350, 2456956037, 2730485921, 2820302411,
   3259730800, 3345764771, 3516065817, 3600352804, 4094571909, 275423344,
   430227734, 506948616, 659060556, 883997877, 958139571, 1322822218,
   1537002063, 1747873779, 1955562222, 2024104815, 2227730452, 2361852424,
   2428436474, 2756734187, 3204031479, 3329325298]

/-- The eight working variables of the compression function. -/
structure Hash8 where
  a : ℕ
  b : ℕ
  c : ℕ
  d : ℕ
  e : ℕ
  f : ℕ
  g : ℕ
  h : ℕ
deriving DecidableEq, Repr

/-- The SHA-256 initial hash value (FIPS 180-4 section 5.3.3, in
decimal). -/
def sha256H0 : Hash8 :=
  ⟨1779033703, 3144134277, 1013904242, 2773480762,
   1359893119, 2600822924, 528734635, 1541459225⟩

/-- One SHA-256 round; `kw` is the pair of round constant and schedule word. -/
def sha256Round (st : Hash8) (kw : ℕ × ℕ) : Hash8 :=
  let t1 := w32 (st.h + bigSigma1 st.e + chFn st.e st.f st.g + kw.1 + kw.2)
  let t2 := w32 (bigSigma0 st.a + majFn st.a st.b st.c)
  ⟨w32 (t1 + t2), st.a, st.b, st.c, w32 (st.d + t1), st.e, st.f, st.g⟩

/-- Next message-schedule word from the previous sixteen, newest first:
`W_t = σ1 W_{t-2} + W_{t-7} + σ0 W_{t-15} + W_{t-16}`. -/
def nextScheduleWord (rev : List ℕ) : ℕ :=
  w32 (smallSigma1 (rev.getD 1 0) + rev.getD 6 0 +
       smallSigma0 (rev.getD 14 0) + rev.getD 15 0)

/-- Extend the reversed message schedule by `n` words. -/
def extendSchedule : ℕ → List ℕ → List ℕ
  | 0, rev => rev
  | n + 1, rev => extendSchedule n (nextScheduleWord rev :: rev)

/-- The 64-word message schedule of one 16-word block. -/
def msgSchedule (block16 : List ℕ) : List ℕ :=
  (extendSchedule 48 block16.reverse).reverse

/-- Compress one 16-word block into the hash state. -/
def sha256Compress (h : Hash8) (block16 : List ℕ) : Hash8 :=
  let st := (sha256K.zip (msgSchedule block16)).foldl sha256Round h
  ⟨w32 (h.a + st.a), w32 (h.b + st.b), w32 (h.c + st.c), w32 (h.d + st.d),
   w32 (h.e + st.e), w32 (h.f + st.f), w32 (h.g + st.g), w32 (h.h + st.h)⟩

/-- Fold the compression function over `n` consecutive 16-word blocks. -/
def sha256Blocks : ℕ → Hash8 → List ℕ → Hash8
  | 0, h, _ => h
  | n + 1, h, ws => sha256Blocks n (sha256Compress h (ws.take 16)) (ws.drop 16)

/-- The four big-endian bytes of a 32-bit word. -/
def beBytes4 (n : ℕ) : List ℕ :=
  [n / 16777216 % 256, n / 65536 % 256, n / 256 % 256, n % 256]

/-- The eight big-endian bytes of a 64-bit length field. -/
def beBytes8 (n : ℕ) : List ℕ :=
  [n / 2 ^ 56 % 256, n / 2 ^ 48 % 256, n / 2 ^ 40 % 256, n / 2 ^ 32 % 256,
   n / 2 ^ 24 % 256, n / 2 ^ 16 % 256, n / 2 ^ 8 % 256, n % 256]

/-- Big-endian bytes to 32-bit words, four bytes per word. -/
def bytesToWords : List ℕ → List ℕ
  | b0 :: b1 :: b2 :: b3 :: rest =>
      (b0 * 16777216 + b1 * 65536 + b2 * 256 + b3) :: bytesToWords rest
  | _ => []

/-- FIPS 180-4 padding: `0x80`, zeros to 56 mod 64, and the 64-bit
big-endian bit length. -/
def sha256Pad (msg : List ℕ) : List ℕ :=
  msg ++ [128] ++ List.replicate ((55 + 64 - msg.length % 64) % 64) 0 ++
    beBytes8 (8 * msg.length)

/-- The SHA-256 digest of a byte string, as 32 bytes. -/
def sha256 (msg : List ℕ) : List ℕ :=
  let ws := bytesToWords (sha256Pad msg)
  let final := sha256Blocks (ws.length / 16) sha256H0 ws
  beBytes4 final.a ++ beBytes4 final.b ++ beBytes4 final.c ++ beBytes4 final.d ++
    beBytes4 final.e ++ beBytes4 final.f ++ beBytes4 final.g ++ beBytes4 final.h

/-- The standard base64 alphabet of RFC 4648 section 4 (`+` and `/` at 62
and 63), Go's `base64.StdEncoding` / `RawStdEncoding`. -/
def b64StdChar (i : ℕ) : Char :=
  if i < 26 then Char.ofNat (65 + i)
  else if i < 52 then Char.ofNat (97 + (i - 26))
  else if i < 62 then Char.ofNat (48 + (i - 52))
  else if i = 62 then '+'
  else '/'

/-- The URL-safe base64 alphabet of RFC 4648 section 5 (`-` and `_` at 62
and 63), Go's `base64.URLEncoding` / `RawURLEncoding`. -/
def b64UrlChar (i : ℕ) : Char :=
  if i < 26 then Char.ofNat (65 + i)
  else if i < 52 then Char.ofNat (97 + (i - 26))
  else if i < 62 then Char.ofNat (48 + (i - 52))
  else if i = 62 then '-'
  else '_'

/-- Raw (unpadded) base64: three bytes to four alphabet characters, a
two-byte tail to three, a one-byte tail to two, no `=` padding — Go's
`Encoding.EncodeToString` with `NoPadding`.  Every emitted index is a 6-bit
group; the `% 64` is the identity on genuine byte input. -/
def base64RawEncode (f : ℕ → Char) : List ℕ → List Char
  | [] => []
  | [b1] => [f (b1 / 4 % 64), f (b1 % 4 * 16 % 64)]
  | [b1, b2] => [f (b1 / 4 % 64), f ((b1 % 4 * 16 + b2 / 16) % 64), f (b2 % 16 * 4 % 64)]
  | b1 :: b2 :: b3 :: rest =>
      let n := b1 * 65536 + b2 * 256 + b3
      f (n / 262144 % 64) :: f (n / 4096 % 64) :: f (n / 64 % 64) :: f (n % 64) ::
        base64RawEncode f rest

/-- `pb.Message` from go-libp2p-pubsub, with the fields the repository's
code can touch; `generateMessageID` reads only `data`. -/
structure PubSubMessage where
  sender : List ℕ
  data : List ℕ
  seqno : List ℕ
  topic : String
deriving DecidableEq, Repr

/-- `generateMessageID`: SHA-256 of `msg.Data`, encoded with
`base64.RawStdEncoding.EncodeToString`. -/
def generateMessageID (msg : PubSubMessage) : String :=
  String.mk (base64RawEncode b64StdChar (sha256 msg.data))

/-- Modelled from the spec: the message id the specification describes,
"SHA-256 of payload, base64url without padding" — the URL-safe alphabet
instead of the standard one the code uses. -/
def generateMessageIDSpec (msg : PubSubMessage) : String :=
  String.mk (base64RawEncode b64UrlChar (sha256 msg.data))

/-- A pub/sub message with empty payload, sender and sequence number. -/
def emptyMessage : PubSubMessage := ⟨[], [], [], ""⟩

/-! ## Connection manager (`ConnectionManager`)

The lifecycle state machine: `handleConnected` / `handleDisconnected` over
the `connectedPeers` map (an association list in insertion order, with a
fresh-worker counter witnessing each `NewPeerConnection`), the reconnection
backoff schedule shared by `handleDisconnected`'s retry goroutine and
`connectInitialPeers`, and the `connectInitialPeers` pending-set loop. -/

/-- `maxSleepBackoff` from the source: 30 (seconds). -/
def maxSleepBackoff : ℕ := 30

/-- The file-local `min` helper of the source. -/
def minGo (a b : ℕ) : ℕ := if a < b then a else b

/-- `sleepTimeSeconds` before retry `n + 1`: it starts at 1 and after each
sleep becomes `min(maxSleepBackoff, sleepTimeSeconds*2)` — the shared
schedule of `handleDisconnected`'s reconnection goroutine and
`connectInitialPeers`. -/
def sleepSeq : ℕ → ℕ
  | 0 => 1
  | n + 1 => minGo maxSleepBackoff (sleepSeq n * 2)

/-- Cumulative time (seconds) of connect attempt `n`: attempt 0 happens
immediately and attempt `n + 1` after the `n`-th sleep. -/
def attemptTime : ℕ → ℕ
  | 0 => 0
  | n + 1 => attemptTime n + sleepSeq n

/-- Lookup in the `connectedPeers` association list (the Go map). -/
def lookupPeer (l : List (PeerID × ℕ)) (pid : PeerID) : Option ℕ :=
  match l with
  | [] => none
  | e :: t => if e.1 = pid then some e.2 else lookupPeer t pid

/-- The lifecycle-relevant state of `ConnectionManager`: the
`connectedPeers` map and a counter handing out worker numbers, one per
`NewPeerConnection` started. -/
structure CMState where
  connectedPeers : List (PeerID × ℕ)
  nextWorker : ℕ
deriving DecidableEq, Repr

/-- The state `NewConnectionManager` builds: no connected peers. -/
def initialCMState : CMState := ⟨[], 0⟩

/-- `handleConnected`: if the remote peer is not yet tracked, create a new
`PeerConnection` under a fresh cancel scope, start it and remember it in
`connectedPeers`; otherwise leave the state untouched. -/
def handleConnected (s : CMState) (pid : PeerID) : CMState :=
  match lookupPeer s.connectedPeers pid with
  | some _ => s
  | none =>
      { connectedPeers := (pid, s.nextWorker) :: s.connectedPeers
        nextWorker := s.nextWorker + 1 }

/-- `handleDisconnected` (tracking part): cancel the peer's scope and
delete it from `connectedPeers` (no-op when untracked). -/
def handleDisconnected (s : CMState) (pid : PeerID) : CMState :=
  { s with connectedPeers := s.connectedPeers.filter (fun e => decide (e.1 ≠ pid)) }

/-- The two notifier events `managerLoop` dispatches on. -/
inductive CMEvent where
  | connected (pid : PeerID)
  | disconnected (pid : PeerID)
deriving DecidableEq, Repr

/-- One `managerLoop` dispatch. -/
def cmStep (s : CMState) : CMEvent → CMState
  | .connected pid => handleConnected s pid
  | .disconnected pid => handleDisconnected s pid

/-- The manager state after a sequence of connection events, from the
initial state. -/
def cmRun (es : List CMEvent) : CMState :=
  es.foldl cmStep initialCMState

/-- One cycle of the `connectInitialPeers` loop body, with `ok` the outcome
of `host.Connect` during this cycle: every configured initial peer is
attempted, the successful ones are collected into `newlyConnectedPeers` and
deleted from the pending set. -/
def connectCycle (initial : List PeerID) (ok : PeerID → Bool)
    (pending : List PeerID) : List PeerID :=
  let newly := initial.filter ok
  pending.filter (fun p => decide (p ∉ newly))

/-- The pending set (`peersToConnect`) before cycle `n`; `connectOk n` is
the behaviour of `host.Connect` during cycle `n` (after a cancellation
every `Connect` fails, and the loop body contains no other check of the
context). -/
def pendingAfter (initial : List PeerID) (connectOk : ℕ → PeerID → Bool) :
    ℕ → List PeerID
  | 0 => initial
  | n + 1 => connectCycle initial (connectOk n) (pendingAfter initial connectOk n)

/-- The guard of the loop is `len(peersToConnect) > 0`, so the loop
terminates exactly when some cycle leaves the pending set empty. -/
def connectLoopTerminates (initial : List PeerID)
    (connectOk : ℕ → PeerID → Bool) : Prop :=
  ∃ n, pendingAfter initial connectOk n = []

/-! ## Per-peer handler (`PeerHandler`) -/

/-- `NodeUpdate` from the protocol package. -/
structure NodeUpdate where
  nodeHeight : ℕ
  interestStartHeight : ℕ
  interestNumBlocks : ℕ
deriving DecidableEq, Repr

/-- The events `nodeUpdateLoop` can service: a value arriving on
`nodeUpdateChan`, or `internalNodeUpdateChan` accepting the buffered
value. -/
inductive NodeUpdateEvent where
  | recv (u : NodeUpdate)
  | deliver
deriving DecidableEq, Repr

/-- One iteration of `nodeUpdateLoop`'s `select`.  The buffer is the
`value`/`hasValue` pair as an `Option`: an arriving update always replaces
the buffer (discarding any buffered value); a delivery hands the buffered
value to `internalNodeUpdateChan` and empties the buffer; a delivery
is only offered while a value is buffered, so in the empty state it is a
no-op.  The second component is the updates handed to the consumer. -/
def nuStep : Option NodeUpdate → NodeUpdateEvent → Option NodeUpdate × List NodeUpdate
  | _, .recv u => (some u, [])
  | some v, .deliver => (none, [v])
  | none, .deliver => (none, [])

/-- Run `nodeUpdateLoop` over a schedule of events, collecting the buffer
and everything delivered to the consumer. -/
def nuRun : Option NodeUpdate → List NodeUpdateEvent → Option NodeUpdate × List NodeUpdate
  | buf, [] => (buf, [])
  | buf, e :: es =>
      ((nuRun (nuStep buf e).1 es).1,
       (nuStep buf e).2 ++ (nuRun (nuStep buf e).1 es).2)

/-- The updates received from `nodeUpdateChan` along a schedule. -/
def recvValues : List NodeUpdateEvent → List NodeUpdate
  | [] => []
  | NodeUpdateEvent.recv u :: es => u :: recvValues es
  | NodeUpdateEvent.deliver :: es => recvValues es

/-- `doPeerCycle` inside `peerHandlerLoop`: the messages it posts on the
shared `errChan`, given `peerHandlerCycle`'s result (`some` an error
string, or `none`).  In the source the send of `PeerError{h.peerID, err}`
is commented out (a `TODO` notes the channel must be handled first), so
the error branch logs nothing to the channel and returns: both branches
post nothing. -/
def doPeerCycleErrChanSends (_pid : PeerID) (cycleErr : Option String) :
    List (PeerID × String) :=
  match cycleErr with
  | some _ => []
  | none => []

/-! ## Theorems: error-score engine -/

/-- Decaying to the very clock reading the record already carries leaves the
score unchanged (`exp 0 = 1`). -/
theorem decayedScoreVal_self (opts : PeerErrorHandlerOptions) (s t : ℕ) :
    decayedScoreVal opts s t t = s := by
  simp [decayedScoreVal]

/-- Decaying to a later clock reading never increases the score: the decay
factor `exp` of a nonpositive argument is at most `1`. -/
theorem decayedScoreVal_le (opts : PeerErrorHandlerOptions)
    (score lastUpdate now : ℕ) (h : lastUpdate ≤ now) :
    decayedScoreVal opts score lastUpdate now ≤ score := by
  unfold decayedScoreVal
  have hc : 0 ≤ Real.log 2 / (opts.errorScoreDecayHalflife : ℝ) :=
    div_nonneg (Real.log_nonneg (by norm_num)) (by positivity)
  have hd : (0 : ℝ) ≤ (now : ℝ) - (lastUpdate : ℝ) := by
    have := (Nat.cast_le (α := ℝ)).mpr h
    linarith
  have hexp : Real.exp (-(Real.log 2 / (opts.errorScoreDecayHalflife : ℝ)) *
      ((now : ℝ) - (lastUpdate : ℝ))) ≤ 1 := by
    rw [← Real.exp_zero]
    exact Real.exp_le_exp.mpr (by nlinarith [mul_nonneg hc hd])
  calc ⌊(score : ℝ) * Real.exp (-(Real.log 2 / (opts.errorScoreDecayHalflife : ℝ)) *
          ((now : ℝ) - (lastUpdate : ℝ)))⌋₊
      ≤ ⌊(score : ℝ)⌋₊ := by
        apply Nat.floor_le_floor
        nlinarith [Real.exp_nonneg (-(Real.log 2 / (opts.errorScoreDecayHalflife : ℝ)) *
          ((now : ℝ) - (lastUpdate : ℝ)))]
    _ = score := Nat.floor_natCast score

/-- C1: the reply computed by `handleCanConnect` for a peer `id` is `true`
iff `id` has no error-score record, or the record's score, decayed to the
current clock reading, is strictly below `ErrorScoreThreshold`. -/
theorem handleCanConnect_true_iff (opts : PeerErrorHandlerOptions)
    (m : ErrorScores) (id : PeerID) (now : ℕ) :
    (handleCanConnect opts m id now).1 = true ↔
      m id = none ∨
        ∃ r, m id = some r ∧
          decayedScoreVal opts r.score r.lastUpdate now <
            opts.errorScoreThreshold := by
  cases h : m id with
  | none => simp [handleCanConnect, h]
  | some r => simp [handleCanConnect, h, decayErrorScore]

/-- C2: `handleError` decays the existing record to the current clock (or
creates a record stamped `now`) and then adds `getScoreForError`'s weight;
the disconnect signal is emitted iff the resulting score reaches
`ErrorScoreThreshold`.  Two same-kind reports at `t1`, `t2` starting from no
record leave the score at the decayed first score plus the kind's weight
(when the `uint64` addition does not wrap). -/
theorem handleError_decays_adds_and_signals (opts : PeerErrorHandlerOptions)
    (m : ErrorScores) (id : PeerID) (kind : ErrorKind) (now : ℕ) :
    (∀ r, m id = some r →
        (handleError opts m id kind now).1 id =
          some { lastUpdate := now
                 score := (decayedScoreVal opts r.score r.lastUpdate now +
                   getScoreForError opts kind) % 2 ^ 64 }) ∧
    (m id = none →
        (handleError opts m id kind now).1 id =
          some { lastUpdate := now, score := getScoreForError opts kind }) ∧
    (∀ r', (handleError opts m id kind now).1 id = some r' →
        ((handleError opts m id kind now).2 = true ↔
          opts.errorScoreThreshold ≤ r'.score)) ∧
    (∀ t1 t2 : ℕ, m id = none →
        decayedScoreVal opts (getScoreForError opts kind) t1 t2 +
            getScoreForError opts kind < 2 ^ 64 →
        (handleError opts (handleError opts m id kind t1).1 id kind t2).1 id =
          some { lastUpdate := t2
                 score := decayedScoreVal opts (getScoreForError opts kind) t1 t2 +
                   getScoreForError opts kind }) := by
  refine ⟨?_, ?_, ?_, ?_⟩
  · intro r h
    simp [handleError, h, decayErrorScore]
  · intro h
    simp [handleError, h]
  · intro r' h
    cases hm : m id with
    | none =>
        simp only [handleError, hm] at h ⊢
        rw [if_pos trivial, Option.some_inj] at h
        subst h
        simp
    | some r =>
        simp only [handleError, hm] at h ⊢
        rw [if_pos trivial, Option.some_inj] at h
        subst h
        simp
  · intro t1 t2 h hlt
    simp [handleError, h, decayErrorScore]
    simpa using hlt

/-- Witness for C2 at a closed input: peer `QmA`, kind `unknown`, both
reports at clock `0` under `opts0` (weight 1): the first report creates the
record `{0, 1}`, the second leaves `{0, 2}`. -/
theorem handleError_decays_adds_and_signals_witness :
    (handleError opts0 emptyErrorScores "QmA" ErrorKind.unknown 0).1 "QmA" =
      some { lastUpdate := 0, score := 1 } ∧
    (handleError opts0
        (handleError opts0 emptyErrorScores "QmA" ErrorKind.unknown 0).1
        "QmA" ErrorKind.unknown 0).1 "QmA" =
      some { lastUpdate := 0, score := 2 } := by
  have h := handleError_decays_adds_and_signals opts0 emptyErrorScores "QmA"
    ErrorKind.unknown 0
  constructor
  · exact h.2.1 rfl
  · have h4 := h.2.2.2 0 0 rfl
      (by rw [decayedScoreVal_self]; norm_num [getScoreForError, opts0])
    simpa [decayedScoreVal_self, getScoreForError, opts0] using h4

/-- C3: `decayErrorScore` sets the score to the floor of
`score · exp(−ln 2 · (now − lastUpdate) / halflife)` and stamps the record
with `now`; the pre-floor value is nonnegative (so the `uint64` conversion
is the mathematical floor and every tracked score stays a nonnegative
integer); one decay to a later clock never increases the score; and across
any sequence of decays with non-decreasing clock readings the score is
non-increasing. -/
theorem decayErrorScore_floor_nonneg_antitone (opts : PeerErrorHandlerOptions)
    (r : ErrorScoreRecord) (now : ℕ) (ts : List ℕ) :
    (decayErrorScore opts r now =
      { lastUpdate := now
        score := ⌊(r.score : ℝ) *
          Real.exp (-(Real.log 2 / (opts.errorScoreDecayHalflife : ℝ)) *
            ((now : ℝ) - (r.lastUpdate : ℝ)))⌋₊ }) ∧
    (0 ≤ (r.score : ℝ) *
        Real.exp (-(Real.log 2 / (opts.errorScoreDecayHalflife : ℝ)) *
          ((now : ℝ) - (r.lastUpdate : ℝ)))) ∧
    (r.lastUpdate ≤ now → (decayErrorScore opts r now).score ≤ r.score) ∧
    (List.Chain (· ≤ ·) r.lastUpdate ts → (decaySeq opts r ts).score ≤ r.score) := by
  refine ⟨rfl, ?_, ?_, ?_⟩
  · positivity
  · intro h
    exact decayedScoreVal_le opts r.score r.lastUpdate now h
  · intro hchain
    induction ts generalizing r with
    | nil => simp [decaySeq]
    | cons t ts ih =>
        rcases hchain with _ | ⟨hle, hchain⟩
        have hstep : (decayErrorScore opts r t).score ≤ r.score :=
          decayedScoreVal_le opts r.score r.lastUpdate t hle
        have htail : (decaySeq opts (decayErrorScore opts r t) ts).score ≤
            (decayErrorScore opts r t).score := by
          exact ih (decayErrorScore opts r t) (by simpa [decayErrorScore] using hchain)
        calc (decaySeq opts r (t :: ts)).score
            = (decaySeq opts (decayErrorScore opts r t) ts).score := by
              simp [decaySeq]
          _ ≤ (decayErrorScore opts r t).score := htail
          _ ≤ r.score := hstep

/-- Witness for C3 at a closed input: record `{lastUpdate 0, score 5}`,
decayed at clocks `0` then `1` under `opts0`, ends at most `5`. -/
theorem decayErrorScore_floor_nonneg_antitone_witness :
    (decaySeq opts0 { lastUpdate := 0, score := 5 } [0, 1]).score ≤ 5 := by
  have h := decayErrorScore_floor_nonneg_antitone opts0
    { lastUpdate := 0, score := 5 } 0 [0, 1]
  exact h.2.2.2 (List.Chain.cons (by norm_num) (List.Chain.cons (by norm_num) List.Chain.nil))

/-- C10: the `select` in `CanConnect` fails closed: when cancellation is
observed before the handler's reply, the result is `false`; only when the
reply arrives first is the gate's computed answer returned. -/
theorem canConnect_fails_closed_on_cancellation (opts : PeerErrorHandlerOptions)
    (m : ErrorScores) (id : PeerID) (now : ℕ) :
    CanConnect opts m id now CanConnectOutcome.ctxDoneFirst = false ∧
    CanConnect opts m id now CanConnectOutcome.replyFirst =
      (handleCanConnect opts m id now).1 :=
  ⟨rfl, rfl⟩

/-! ## Theorems: pub/sub message id -/

set_option maxRecDepth 10000 in
/-- The model reproduces the FIPS 180-4 test vector: the SHA-256 digest of
the empty byte string. -/
theorem sha256_empty_vector :
    sha256 [] =
      [227, 176, 196, 66, 152, 252, 28, 20, 154, 251, 244, 200, 153, 111,
       185, 36, 39, 174, 65, 228, 100, 155, 147, 76, 164, 149, 153, 27, 120,
       82, 184, 85] := by
  decide

/-- A SHA-256 digest is 32 bytes. -/
theorem sha256_length (msg : List ℕ) : (sha256 msg).length = 32 := by
  simp [sha256, beBytes4]

/-- Raw base64 of a byte string of length `3n + 2` has `4n + 3` characters. -/
theorem base64RawEncode_length_two_mod_three (f : ℕ → Char) (n : ℕ) :
    ∀ bs : List ℕ, bs.length = 3 * n + 2 →
      (base64RawEncode f bs).length = 4 * n + 3 := by
  induction n with
  | zero =>
      intro bs h
      norm_num at h
      obtain ⟨a, b, rfl⟩ := List.length_eq_two.mp h
      simp [base64RawEncode]
  | succ n ih =>
      intro bs h
      cases bs with
      | nil => simp at h
      | cons b1 t1 =>
        cases t1 with
        | nil => simp at h
        | cons b2 t2 =>
          cases t2 with
          | nil => simp at h
          | cons b3 rest =>
            have hr : rest.length = 3 * n + 2 := by simp at h; omega
            simp [base64RawEncode, ih rest hr]
            omega

/-- Every character emitted by raw base64 encoding is the alphabet at a
6-bit index. -/
theorem mem_base64RawEncode (f : ℕ → Char) :
    ∀ (bs : List ℕ) (c : Char), c ∈ base64RawEncode f bs →
      ∃ i, i < 64 ∧ c = f i
  | [], c, hc => by simp [base64RawEncode] at hc
  | [b1], c, hc => by
      simp [base64RawEncode] at hc
      rcases hc with h | h <;> exact ⟨_, Nat.mod_lt _ (by norm_num), h⟩
  | [b1, b2], c, hc => by
      simp [base64RawEncode] at hc
      rcases hc with h | h | h <;> exact ⟨_, Nat.mod_lt _ (by norm_num), h⟩
  | b1 :: b2 :: b3 :: rest, c, hc => by
      simp only [base64RawEncode, List.mem_cons] at hc
      rcases hc with h | h | h | h | h
      · exact ⟨_, Nat.mod_lt _ (by norm_num), h⟩
      · exact ⟨_, Nat.mod_lt _ (by norm_num), h⟩
      · exact ⟨_, Nat.mod_lt _ (by norm_num), h⟩
      · exact ⟨_, Nat.mod_lt _ (by norm_num), h⟩
      · exact mem_base64RawEncode f rest c h

/-- The standard alphabet never produces the padding character. -/
theorem b64StdChar_ne_pad : ∀ i, i < 64 → b64StdChar i ≠ '=' := by decide

set_option maxRecDepth 10000 in
/-- C4 counterexample: on the empty payload the id computed by the code
(standard-alphabet raw base64 of the SHA-256 digest) differs from the
spec's base64url-without-padding id: the digest contains the 6-bit groups
62 and 63, encoded `+/` by the code and `-_` by the spec. -/
theorem generateMessageID_not_base64url :
    generateMessageID emptyMessage ≠ generateMessageIDSpec emptyMessage := by
  decide

/-- C4 (amended): `generateMessageID` is the SHA-256 hash of the message
payload encoded in standard base64 (RFC 4648 section 4 alphabet) without
padding; it depends only on the payload, so a payload received back from
the mesh yields an id identical to the sender's computation; the id is 43
characters and free of the padding character. -/
theorem generateMessageID_std_base64 (m1 m2 : PubSubMessage)
    (hdata : m1.data = m2.data) :
    generateMessageID m1 = generateMessageID m2 ∧
    generateMessageID m1 =
      String.mk (base64RawEncode b64StdChar (sha256 m1.data)) ∧
    (generateMessageID m1).length = 43 ∧
    '=' ∉ (generateMessageID m1).toList := by
  refine ⟨by simp [generateMessageID, hdata], rfl, ?_, ?_⟩
  · have h32 : (sha256 m1.data).length = 32 := sha256_length m1.data
    have h43 := base64RawEncode_length_two_mod_three b64StdChar 10
      (sha256 m1.data) (by omega)
    simpa [generateMessageID, String.length] using h43
  · intro hmem
    have hmem' : '=' ∈ base64RawEncode b64StdChar (sha256 m1.data) := by
      simpa [generateMessageID, String.toList] using hmem
    obtain ⟨i, hi, heq⟩ := mem_base64RawEncode b64StdChar _ _ hmem'
    exact b64StdChar_ne_pad i hi heq.symm

/-- Witness for C4 (amended) at a closed input: two messages sharing the
payload `[1, 2, 3]` but differing in sender, seqno and topic get the same
id. -/
theorem generateMessageID_std_base64_witness :
    generateMessageID ⟨[], [1, 2, 3], [], "blocks"⟩ =
      generateMessageID ⟨[9], [1, 2, 3], [7], "transactions"⟩ :=
  (generateMessageID_std_base64 ⟨[], [1, 2, 3], [], "blocks"⟩
    ⟨[9], [1, 2, 3], [7], "transactions"⟩ rfl).1

/-! ## Theorems: connection manager -/

/-- From the fifth sleep on, every sleep is the 30-second cap. -/
theorem sleepSeq_eventually_capped : ∀ m, sleepSeq (m + 5) = 30 := by
  intro m
  induction m with
  | zero => decide
  | succ m ih =>
      have hstep : sleepSeq (m + 1 + 5) = minGo maxSleepBackoff (sleepSeq (m + 5) * 2) := rfl
      rw [hstep, ih]
      decide

/-- C5: the reconnection/initial-connect backoff: the first sleep is 1
second, each following sleep is `min(30, previous * 2)`, and the connect
attempts fall at cumulative times 0, 1, 3, 7, 15, 31, 61 seconds and then
every 30 seconds. -/
theorem backoff_schedule :
    sleepSeq 0 = 1 ∧
    (∀ n, sleepSeq (n + 1) = minGo maxSleepBackoff (sleepSeq n * 2)) ∧
    (attemptTime 0 = 0 ∧ attemptTime 1 = 1 ∧ attemptTime 2 = 3 ∧
     attemptTime 3 = 7 ∧ attemptTime 4 = 15 ∧ attemptTime 5 = 31 ∧
     attemptTime 6 = 61) ∧
    (∀ n, 6 ≤ n → attemptTime (n + 1) = attemptTime n + 30) := by
  refine ⟨rfl, fun n => rfl, by decide, ?_⟩
  intro n hn
  obtain ⟨k, rfl⟩ := Nat.exists_eq_add_of_le hn
  have h30 : sleepSeq (6 + k) = 30 := by
    rw [Nat.add_comm]
    exact sleepSeq_eventually_capped (k + 1)
  simp [attemptTime, h30]

/-- Witness for C5 at a closed input: the step from attempt 7 to attempt 8
is the 30-second cap. -/
theorem backoff_schedule_witness : attemptTime 8 = attemptTime 7 + 30 :=
  backoff_schedule.2.2.2 7 (by norm_num)

/-- `lookupPeer` misses exactly when no entry has the key. -/
theorem lookupPeer_eq_none (l : List (PeerID × ℕ)) (pid : PeerID) :
    lookupPeer l pid = none ↔ ∀ e ∈ l, e.1 ≠ pid := by
  induction l with
  | nil => simp [lookupPeer]
  | cons e t ih =>
      by_cases hq : e.1 = pid
      · simp [lookupPeer, hq]
      · simp [lookupPeer, hq, ih]

/-- One `managerLoop` dispatch preserves "at most one worker per peer id". -/
theorem cmStep_count_le_one (s : CMState) (e : CMEvent)
    (h : ∀ pid, (s.connectedPeers.filter (fun x => decide (x.1 = pid))).length ≤ 1) :
    ∀ pid, ((cmStep s e).connectedPeers.filter (fun x => decide (x.1 = pid))).length ≤ 1 := by
  intro pid
  cases e with
  | connected q =>
      show ((handleConnected s q).connectedPeers.filter _).length ≤ 1
      cases hl : lookupPeer s.connectedPeers q with
      | some w => simpa [handleConnected, hl] using h pid
      | none =>
          have hmiss : ∀ e ∈ s.connectedPeers, e.1 ≠ q :=
            (lookupPeer_eq_none s.connectedPeers q).mp hl
          by_cases hpq : pid = q
          · subst hpq
            have hnil : s.connectedPeers.filter (fun x => decide (x.1 = pid)) = [] := by
              rw [List.filter_eq_nil_iff]
              intro e he
              simpa using hmiss e he
            simp [handleConnected, hl, hnil]
          · have hne : (decide ((q, s.nextWorker).1 = pid)) = false := by
              simp only [decide_eq_false_iff_not]
              intro hqq
              exact hpq hqq.symm
            simpa [handleConnected, hl, List.filter, hne] using h pid
  | disconnected q =>
      have hsub : ((handleDisconnected s q).connectedPeers.filter
            (fun x => decide (x.1 = pid))).Sublist
          (s.connectedPeers.filter (fun x => decide (x.1 = pid))) :=
        List.Sublist.filter _ (List.filter_sublist s.connectedPeers)
      exact le_trans hsub.length_le (h pid)

/-- Every reachable manager state has at most one worker per peer id. -/
theorem cmRun_count_le_one (es : List CMEvent) (pid : PeerID) :
    ((cmRun es).connectedPeers.filter (fun x => decide (x.1 = pid))).length ≤ 1 := by
  suffices h : ∀ s : CMState,
      (∀ q, (s.connectedPeers.filter (fun x => decide (x.1 = q))).length ≤ 1) →
      ∀ q, ((es.foldl cmStep s).connectedPeers.filter
        (fun x => decide (x.1 = q))).length ≤ 1 by
    exact h initialCMState (by intro q; simp [initialCMState]) pid
  induction es with
  | nil => intro s hs q; simpa using hs q
  | cons e es ih =>
      intro s hs q
      exact ih (cmStep s e) (cmStep_count_le_one s e hs) q

/-- C6: in every state reachable by connect/disconnect events at most one
worker exists per peer id, and `handleConnected` on an already-tracked
peer leaves the state unchanged (a duplicate `Connected` is a no-op). -/
theorem connectionManager_at_most_one_worker (es : List CMEvent) (pid : PeerID)
    (s : CMState) (hs : lookupPeer s.connectedPeers pid ≠ none) :
    ((cmRun es).connectedPeers.filter (fun x => decide (x.1 = pid))).length ≤ 1 ∧
    handleConnected s pid = s := by
  refine ⟨cmRun_count_le_one es pid, ?_⟩
  cases hl : lookupPeer s.connectedPeers pid with
  | none => exact absurd hl hs
  | some w => simp [handleConnected, hl]

/-- Witness for C6 at a closed input: a duplicate `Connected` for `QmA` on
the state already tracking `QmA` changes nothing. -/
theorem connectionManager_at_most_one_worker_witness :
    handleConnected ⟨[("QmA", 0)], 1⟩ "QmA" = ⟨[("QmA", 0)], 1⟩ :=
  (connectionManager_at_most_one_worker [] "QmA" ⟨[("QmA", 0)], 1⟩
    (by simp [lookupPeer])).2

/-- C9 counterexample: with one configured seed and every `host.Connect`
failing — exactly the behaviour under a cancelled scope — the pending set
never empties, so the loop does not terminate: the body checks no
cancellation signal, refuting "it also terminates when the enclosing scope
is cancelled". -/
theorem connectInitialPeers_no_exit_on_cancel :
    ¬ connectLoopTerminates ["QmSeed"] (fun _ _ => false) := by
  have hfix : ∀ n, pendingAfter ["QmSeed"] (fun _ _ => false) n = ["QmSeed"] := by
    intro n
    induction n with
    | zero => rfl
    | succ n ih =>
        show connectCycle ["QmSeed"] (fun _ => false)
          (pendingAfter ["QmSeed"] (fun _ _ => false) n) = ["QmSeed"]
        rw [ih]
        decide
  rintro ⟨n, hn⟩
  rw [hfix n] at hn
  exact List.cons_ne_nil _ _ hn

/-- C9 (amended): a peer is pending after cycle `n + 1` iff it was pending
and was not a successfully connected configured peer of cycle `n`; pending
peers are always configured initial peers; an empty pending set stays
empty (the `len > 0` guard then ends the loop); and a cycle in which every
configured initial peer connects successfully empties the pending set.
Termination on cancellation alone is not among the loop's properties. -/
theorem connectInitialPeers_cycle_dynamics (initial : List PeerID)
    (connectOk : ℕ → PeerID → Bool) :
    (∀ n p, p ∈ pendingAfter initial connectOk (n + 1) ↔
        p ∈ pendingAfter initial connectOk n ∧
          ¬ (p ∈ initial ∧ connectOk n p = true)) ∧
    (∀ n p, p ∈ pendingAfter initial connectOk n → p ∈ initial) ∧
    (∀ n, pendingAfter initial connectOk n = [] →
        ∀ m, pendingAfter initial connectOk (n + m) = []) ∧
    (∀ n, (∀ p, p ∈ initial → connectOk n p = true) →
        pendingAfter initial connectOk (n + 1) = []) := by
  have hmem : ∀ n p, p ∈ pendingAfter initial connectOk (n + 1) ↔
      p ∈ pendingAfter initial connectOk n ∧
        ¬ (p ∈ initial ∧ connectOk n p = true) := by
    intro n p
    show p ∈ connectCycle initial (connectOk n) (pendingAfter initial connectOk n) ↔ _
    simp [connectCycle, List.mem_filter]
    tauto
  have hsub : ∀ n p, p ∈ pendingAfter initial connectOk n → p ∈ initial := by
    intro n
    induction n with
    | zero => intro p hp; exact hp
    | succ n ih =>
        intro p hp
        exact ih p ((hmem n p).mp hp).1
  refine ⟨hmem, hsub, ?_, ?_⟩
  · intro n hn m
    induction m with
    | zero => exact hn
    | succ m ih =>
        show connectCycle initial (connectOk (n + m))
          (pendingAfter initial connectOk (n + m)) = []
        rw [ih]
        simp [connectCycle]
  · intro n hall
    rw [List.eq_nil_iff_forall_not_mem]
    intro p hp
    have hpend := ((hmem n p).mp hp).1
    have hinit := hsub n p hpend
    exact ((hmem n p).mp hp).2 ⟨hinit, hall p hinit⟩

/-- Witness for C9 (amended) at a closed input: one seed, every connect
succeeding in cycle 0, pending empty after one cycle. -/
theorem connectInitialPeers_cycle_dynamics_witness :
    pendingAfter ["QmSeed"] (fun _ _ => true) 1 = [] :=
  (connectInitialPeers_cycle_dynamics ["QmSeed"] (fun _ _ => true)).2.2.2 0
    (by intro p hp; rfl)

/-! ## Theorems: per-peer handler -/

/-- Running a schedule split in two: the second leg starts from the first
leg's buffer and the outputs concatenate. -/
theorem nuRun_append (s : Option NodeUpdate) (es fs : List NodeUpdateEvent) :
    nuRun s (es ++ fs) =
      ((nuRun (nuRun s es).1 fs).1,
       (nuRun s es).2 ++ (nuRun (nuRun s es).1 fs).2) := by
  induction es generalizing s with
  | nil => simp [nuRun]
  | cons e es ih => simp [nuRun, ih, List.append_assoc]

/-- Whatever one step delivers was the buffered value. -/
theorem nuStep_out_subset (s : Option NodeUpdate) (e : NodeUpdateEvent)
    (u : NodeUpdate) (hu : u ∈ (nuStep s e).2) : u ∈ s.toList := by
  cases s with
  | none => cases e <;> simp [nuStep] at hu
  | some v =>
      cases e with
      | recv x => simp [nuStep] at hu
      | deliver =>
          simp [nuStep] at hu
          simp [hu]

/-- After one step the buffer holds a previously buffered or a just
received value. -/
theorem nuStep_buf_subset (s : Option NodeUpdate) (e : NodeUpdateEvent)
    (u : NodeUpdate) (hu : u ∈ (nuStep s e).1.toList) :
    u ∈ s.toList ∨ u ∈ recvValues [e] := by
  cases s <;> cases e <;> simp [nuStep, recvValues] at hu ⊢ <;> tauto

/-- Everything the consumer receives was buffered at the start or received
on `nodeUpdateChan` during the schedule. -/
theorem nuRun_out_subset (es : List NodeUpdateEvent) :
    ∀ (s : Option NodeUpdate) (u : NodeUpdate), u ∈ (nuRun s es).2 →
      u ∈ s.toList ∨ u ∈ recvValues es := by
  induction es with
  | nil => intro s u hu; simp [nuRun] at hu
  | cons e es ih =>
      intro s u hu
      simp only [nuRun, List.mem_append] at hu
      rcases hu with h | h
      · exact Or.inl (nuStep_out_subset s e u h)
      · rcases ih (nuStep s e).1 u h with h1 | h1
        · rcases nuStep_buf_subset s e u h1 with h2 | h2
          · exact Or.inl h2
          · right
            cases e with
            | recv x =>
                simp [recvValues] at h2 ⊢
                tauto
            | deliver => simp [recvValues] at h2
        · right
          cases e <;> simp [recvValues] <;> tauto

/-- A schedule without deliveries hands nothing to the consumer. -/
theorem nuRun_no_deliver_out (es : List NodeUpdateEvent)
    (h : NodeUpdateEvent.deliver ∉ es) : ∀ s, (nuRun s es).2 = [] := by
  induction es with
  | nil => intro s; rfl
  | cons e es ih =>
      intro s
      cases e with
      | recv x =>
          have h' : NodeUpdateEvent.deliver ∉ es :=
            fun hm => h (List.mem_cons_of_mem _ hm)
          simp [nuRun, nuStep, ih h']
      | deliver => exact absurd (List.mem_cons_self _ _) h

/-- A lone arrival delivers nothing. -/
theorem nuRun_single_recv_out (buf : Option NodeUpdate) (x : NodeUpdate) :
    (nuRun buf [NodeUpdateEvent.recv x]).2 = [] := by
  cases buf <;> rfl

/-- After a schedule ending in an arrival, the buffer holds exactly the
arrived value. -/
theorem nuRun_buf_after_recv (s : Option NodeUpdate)
    (es : List NodeUpdateEvent) (u : NodeUpdate) :
    (nuRun s (es ++ [NodeUpdateEvent.recv u])).1 = some u := by
  rw [nuRun_append]
  cases (nuRun s es).1 <;> rfl

/-- C7: the `nodeUpdateLoop` buffer holds at most one update in every
reachable state; a new arrival replaces the buffered update; and an update
that is overwritten before any delivery is never handed to the consumer —
the consumer only ever receives the most recently arrived pending
update. -/
theorem nodeUpdateLoop_last_value_wins (a b c : List NodeUpdateEvent)
    (u w : NodeUpdate)
    (hb : NodeUpdateEvent.deliver ∉ b)
    (ha : u ∉ recvValues a) (hc : u ∉ recvValues c) (huw : u ≠ w) :
    (∀ es : List NodeUpdateEvent, (nuRun none es).1.toList.length ≤ 1) ∧
    (∀ v x, nuStep (some v) (NodeUpdateEvent.recv x) = (some x, [])) ∧
    u ∉ (nuRun none (a ++ [NodeUpdateEvent.recv u] ++ b ++
          [NodeUpdateEvent.recv w] ++ c)).2 := by
  refine ⟨?_, fun v x => rfl, ?_⟩
  · intro es
    cases hbf : (nuRun none es).1 <;> simp [hbf]
  · intro hu
    have hbuf : (nuRun none (((a ++ [NodeUpdateEvent.recv u]) ++ b) ++
        [NodeUpdateEvent.recv w])).1 = some w :=
      nuRun_buf_after_recv none ((a ++ [NodeUpdateEvent.recv u]) ++ b) w
    rw [nuRun_append none (((a ++ [NodeUpdateEvent.recv u]) ++ b) ++
      [NodeUpdateEvent.recv w]) c] at hu
    simp only [List.mem_append] at hu
    rcases hu with hu | hu
    · rw [nuRun_append none ((a ++ [NodeUpdateEvent.recv u]) ++ b)
        [NodeUpdateEvent.recv w]] at hu
      simp only [List.mem_append] at hu
      rcases hu with hu | hu
      · rw [nuRun_append none (a ++ [NodeUpdateEvent.recv u]) b] at hu
        simp only [List.mem_append] at hu
        rcases hu with hu | hu
        · rw [nuRun_append none a [NodeUpdateEvent.recv u]] at hu
          simp only [List.mem_append] at hu
          rcases hu with hu | hu
          · rcases nuRun_out_subset a none u hu with h | h
            · simp at h
            · exact ha h
          · rw [nuRun_single_recv_out] at hu
            simp at hu
        · rw [nuRun_no_deliver_out b hb] at hu
          simp at hu
      · rw [nuRun_single_recv_out] at hu
        simp at hu
    · rw [hbuf] at hu
      rcases nuRun_out_subset c (some w) u hu with h | h
      · simp at h
        exact huw h
      · exact hc h

/-- Witness for C7 at a closed input: updates with heights 1 then 2 arrive
before the consumer is ready; on delivery the consumer receives only the
second, never the overwritten first. -/
theorem nodeUpdateLoop_last_value_wins_witness :
    (⟨1, 0, 0⟩ : NodeUpdate) ∉
      (nuRun none ([] ++ [NodeUpdateEvent.recv ⟨1, 0, 0⟩] ++ [] ++
        [NodeUpdateEvent.recv ⟨2, 0, 0⟩] ++ [NodeUpdateEvent.deliver])).2 :=
  (nodeUpdateLoop_last_value_wins [] [] [NodeUpdateEvent.deliver]
    ⟨1, 0, 0⟩ ⟨2, 0, 0⟩ (by simp) (by simp [recvValues])
    (by simp [recvValues]) (by decide)).2.2

/-- C8 (the code evaluated at the failing input): a failing
`peerHandlerCycle` posts nothing to the shared error channel — the
`errChan` send in `peerHandlerLoop` is commented out behind a `TODO` — in
particular nothing carrying the peer's id and the error, contradicting the
propagation the specification describes. -/
theorem peerHandlerLoop_drops_cycle_error :
    doPeerCycleErrChanSends "QmPeerA" (some "rpc timeout") = [] ∧
    doPeerCycleErrChanSends "QmPeerA" (some "rpc timeout") ≠
      [("QmPeerA", "rpc timeout")] :=
  ⟨rfl, by simp [doPeerCycleErrChanSends]⟩

end KoinosP2P
